import Mathlib

/-!
Verification development for the price-forecast API in `src/API/main.py`
(repository BolsaValoresLSTM).  The numeric pipeline of the `/predict`
endpoint — min-max normalization, sliding-window iterative prediction,
de-normalization, accuracy scoring — and the process-wide telemetry lists
are embedded as executable Lean definitions over `ℚ`, and the spec's
properties are proved or refuted against them.
-/

/-- Width of the model input window, hard-coded as `60` in `main.py`
(lines 103 and 117). -/
def W : Nat := 60

/-- State of the fitted `MinMaxScaler` (module-level `scaler` at
`main.py` line 42, fitted by `scaler.fit_transform` at line 114):
the per-feature data minimum and maximum.  The data is a single column
(`reshape(-1, 1)`), so one min and one max over the whole price list. -/
structure ScalerState where
  dataMin : ℚ
  dataMax : ℚ
deriving DecidableEq, Repr

/-- Minimum of a nonempty price list (`np.min` over the fitted column);
`0` on the empty list, which the guarded call sites never produce. -/
def listMin : List ℚ → ℚ
  | [] => 0
  | h :: t => t.foldl min h

/-- Maximum of a nonempty price list (`np.max` over the fitted column);
`0` on the empty list, which the guarded call sites never produce. -/
def listMax : List ℚ → ℚ
  | [] => 0
  | h :: t => t.foldl max h

/-- Fit of sklearn's `MinMaxScaler` on a price column: records the data
minimum and maximum (`main.py` line 114, `scaler.fit_transform`). -/
def fitScaler (prices : List ℚ) : ScalerState :=
  { dataMin := listMin prices, dataMax := listMax prices }

/-- The denominator the fitted scaler divides by.  sklearn guards the
degenerate range with `_handle_zeros_in_scale`, which replaces a zero
data range by `1`, so the transform never divides by zero. -/
def scaleDen (s : ScalerState) : ℚ :=
  if s.dataMax - s.dataMin = 0 then 1 else s.dataMax - s.dataMin

/-- `MinMaxScaler.transform` with `feature_range=(0, 1)`:
`(x - dataMin) / (dataMax - dataMin)`, with the zero range replaced by
`1` (sklearn computes `x * scale_ + min_` where
`scale_ = 1 / handle_zeros(dataMax - dataMin)` and
`min_ = -dataMin * scale_`, which is the same map). -/
def transform (s : ScalerState) (x : ℚ) : ℚ :=
  (x - s.dataMin) / scaleDen s

/-- `MinMaxScaler.inverse_transform` with `feature_range=(0, 1)`:
`y * handle_zeros(dataMax - dataMin) + dataMin` (`main.py` line 129). -/
def inverse (s : ScalerState) (y : ℚ) : ℚ :=
  y * scaleDen s + s.dataMin

/-- A numpy floating-point result, abstracted to whether it is an
ordinary finite number or a non-finite value (`inf`, `-inf` or `NaN`,
as produced by dividing by a zero ground-truth entry at `main.py`
line 136; numpy emits a warning, not an exception). -/
inductive NpVal where
  | fin (q : ℚ)
  | nonfin
deriving DecidableEq, Repr

def NpVal.isFin : NpVal → Bool
  | .fin _ => true
  | .nonfin => false

def NpVal.val : NpVal → ℚ
  | .fin q => q
  | .nonfin => 0

/-- One element of `1 - abs(real_values - predicted_values) / real_values`
(`main.py` line 136): a zero actual value makes the float division
non-finite. -/
def accTerm (r p : ℚ) : NpVal :=
  if r = 0 then .nonfin else .fin (1 - |r - p| / r)

/-- `np.mean`: non-finite if the array is empty (`np.mean([])` is `NaN`)
or if any element is non-finite; otherwise the sum divided by the
length. -/
def npMean (l : List NpVal) : NpVal :=
  if l = [] then .nonfin
  else if l.all NpVal.isFin then .fin ((l.map NpVal.val).sum / l.length)
  else .nonfin

/-- Multiplication of a numpy scalar by `100` (`* 100` at line 136). -/
def npMul100 : NpVal → NpVal
  | .fin q => .fin (q * 100)
  | .nonfin => .nonfin

/-- The accuracy computation of `main.py` line 136:
`np.mean(1 - abs(real_values - predicted_values) / real_values) * 100`
on two already-truncated equal-length arrays. -/
def computeAccuracy (real_values predicted_values : List ℚ) : NpVal :=
  npMul100 (npMean (List.zipWith accTerm real_values predicted_values))

/-- Round-half-to-even to the nearest integer, the rounding mode of
Python's built-in `round`. -/
def roundHalfEven (x : ℚ) : ℤ :=
  if x - ⌊x⌋ = 1 / 2 then (if 2 ∣ ⌊x⌋ then ⌊x⌋ else ⌊x⌋ + 1) else round x

/-- Python's `round(x, 2)` (idealized over exact rationals):
round-half-to-even at two decimal places (`main.py` line 147). -/
def round2 (q : ℚ) : ℚ :=
  ((roundHalfEven (q * 100) : ℚ)) / 100

/-- `round(accuracy, 2)` applied to a numpy scalar; rounding a
non-finite float keeps it non-finite. -/
def npRound2 : NpVal → NpVal
  | .fin q => .fin (round2 q)
  | .nonfin => .nonfin

/-- One entry of the `performance_data` list (`main.py` lines 57 and
88-92): the request path, the wall-clock processing time and the
`days_ahead` value extracted from the request body. -/
structure PerfRecord where
  path : String
  process_time : ℚ
  days_ahead : ℤ
deriving DecidableEq, Repr

/-- One entry of the `accuracy_data` list (`main.py` lines 60 and
139-143): the truncated real and predicted value lists and the unrounded
accuracy. -/
structure AccRecord where
  real_values : List ℚ
  predicted_values : List ℚ
  accuracy : NpVal
deriving DecidableEq, Repr

/-- The process-wide mutable telemetry state: the module-level lists
`performance_data` (line 57) and `accuracy_data` (line 60). -/
structure ApiState where
  performance_data : List PerfRecord
  accuracy_data : List AccRecord
deriving DecidableEq, Repr

/-- The request body of `/predict` (`HistoricalData`, `main.py` lines
45-54).  The optional `real_values` field defaults to `None`; both
`None` and the empty list are falsy at line 133, so they are modelled
alike as `[]`. -/
structure HistoricalData where
  prices : List ℚ
  days_ahead : ℤ
  real_values : List ℚ
deriving DecidableEq, Repr

/-- The opaque single-step LSTM model (`model.predict` at line 124):
takes the current window in normalized space and returns one scalar
prediction, or fails (`none` models any exception raised by inference). -/
def Predictor : Type := List ℚ → Option ℚ

/-- The distinct failure modes of `predict_prices`; the source signals
the first three as `ValueError`s with distinct messages (lines 103-110)
and any model exception is caught by the same handler (line 149), all
surfaced as HTTP 400. -/
inductive PredictError where
  | insufficientHistory
  | invalidHorizon
  | modelUnavailable
  | predictorFailure
deriving DecidableEq, Repr

/-- The body of the `/predict` response (lines 145-148): the
de-normalized predicted prices and the accuracy rounded to two decimal
places, when real values were supplied. -/
structure ForecastResult where
  future_prices : List ℚ
  accuracy : Option NpVal
deriving DecidableEq, Repr

/-- The iterative prediction loop (`main.py` lines 120-126): for each of
the `days_ahead` steps, run the model on the current window, append the
prediction to the output, and roll the window forward by dropping its
oldest element and appending the prediction
(`np.append(current_sequence[:, 1:, :], [[prediction[0]]], axis=1)`). -/
def forecastLoop (m : Predictor) : Nat → List ℚ → List ℚ → Option (List ℚ)
  | 0, _, acc => some acc
  | Nat.succ n, cur, acc =>
    match m cur with
    | none => none
    | some p => forecastLoop m n (cur.drop 1 ++ [p]) (acc ++ [p])

/-- The sequence of windows `forecastLoop` passes to the model, in
order, mirroring its recursion step for step (the window list stops
where the model fails, since the loop makes no further calls there). -/
def loopWindows (m : Predictor) : Nat → List ℚ → List (List ℚ)
  | 0, _ => []
  | Nat.succ n, cur =>
    cur :: (match m cur with
            | none => []
            | some p => loopWindows m n (cur.drop 1 ++ [p]))

/-- The `/predict` handler `predict_prices` (`main.py` lines 96-151),
as a function of the loaded model (`None` when loading failed, lines
33-39), the telemetry state and the request body.  It returns the
response (or the error) together with the resulting telemetry state:
1. three validations in order (lines 103-110);
2. fit-and-transform the whole price list (lines 113-114);
3. initial window = last 60 scaled prices (line 117);
4. the iterative loop (lines 120-126);
5. de-normalize the collected predictions (line 129);
6. if `real_values` is truthy, truncate both lists, compute the
   accuracy and append it to `accuracy_data` (lines 132-143);
7. respond with the prices and the rounded accuracy (lines 145-148). -/
def predict_prices (model : Option Predictor) (st : ApiState)
    (data : HistoricalData) :
    Except PredictError ForecastResult × ApiState :=
  if data.prices.length < 60 then (.error .insufficientHistory, st)
  else if data.days_ahead < 1 then (.error .invalidHorizon, st)
  else
    match model with
    | none => (.error .modelUnavailable, st)
    | some m =>
      let sc := fitScaler data.prices
      let scaled_prices := data.prices.map (transform sc)
      let input_sequence := scaled_prices.drop (scaled_prices.length - 60)
      match forecastLoop m data.days_ahead.toNat input_sequence [] with
      | none => (.error .predictorFailure, st)
      | some preds =>
        let future_prices := preds.map (inverse sc)
        if data.real_values = [] then
          (.ok { future_prices := future_prices, accuracy := none }, st)
        else
          let real_values := data.real_values.take future_prices.length
          let predicted_values := future_prices.take real_values.length
          let accuracy := computeAccuracy real_values predicted_values
          (.ok { future_prices := future_prices,
                 accuracy := some (npRound2 accuracy) },
           { st with accuracy_data := st.accuracy_data ++
               [{ real_values := real_values,
                  predicted_values := predicted_values,
                  accuracy := accuracy }] })

/-- The value of the dict literal returned by `get_performance_data`
(`main.py` line 166, `return {"performance": performance_data}`): the
handler does not copy the list — the returned dict holds a reference to
the module-level mutable `performance_data` list itself.  The reference
is resolved against whatever the state is when it is read. -/
inductive PerfHandle where
  | live
deriving DecidableEq, Repr

/-- The `/performance` handler (`main.py` lines 154-166): it returns the
`performance_data` list by reference, without copying. -/
def get_performance_data (_st : ApiState) : PerfHandle :=
  .live

/-- Reading through a value previously returned by
`get_performance_data` at a (possibly later) state: Python dereferences
the stored list object, i.e. yields the current contents of the
module-level list. -/
def readPerformance (st : ApiState) (h : PerfHandle) : List PerfRecord :=
  match h with
  | .live => st.performance_data

/-- The middleware's telemetry append (`main.py` lines 87-92):
`performance_data.append({...})` after a `/predict` request. -/
def appendPerformance (st : ApiState) (r : PerfRecord) : ApiState :=
  { st with performance_data := st.performance_data ++ [r] }

/-- The initial model window: the last 60 scaled prices
(`scaled_prices[-60:]` at `main.py` line 117), exactly as built inside
`predict_prices`. -/
def initialWindow (d : HistoricalData) : List ℚ :=
  let scaled_prices := d.prices.map (transform (fitScaler d.prices))
  scaled_prices.drop (scaled_prices.length - 60)

deriving instance DecidableEq for Except

/-- A deterministic stand-in model used for concrete witnesses: it
always predicts `0` in normalized space. -/
def constPredictor : Predictor := fun _ => some 0

/-- A stand-in model whose inference always raises, used to exercise
the forecast-computation failure path in concrete witnesses. -/
def failPredictor : Predictor := fun _ => none

/-- The telemetry state at process start: both lists empty
(`main.py` lines 57 and 60). -/
def emptyState : ApiState := { performance_data := [], accuracy_data := [] }

/-- Witness request: sixty identical prices of 100, horizon 2, no
ground truth. -/
def reqPlain : HistoricalData :=
  { prices := List.replicate 60 100, days_ahead := 2, real_values := [] }

/-- Witness request with a zero ground-truth value. -/
def reqZeroActual : HistoricalData :=
  { prices := List.replicate 60 100, days_ahead := 1, real_values := [0] }

/-- Witness request whose ground truth makes the accuracy negative. -/
def reqNegAcc : HistoricalData :=
  { prices := List.replicate 60 100, days_ahead := 1, real_values := [25] }

/-- Witness request whose ground truth gives accuracy exactly 100. -/
def reqFullAcc : HistoricalData :=
  { prices := List.replicate 60 100, days_ahead := 1, real_values := [100] }

/-- Witness request that is one price short of the required window. -/
def reqShort : HistoricalData :=
  { prices := List.replicate 59 100, days_ahead := 2, real_values := [] }

/-- Witness request with an invalid horizon. -/
def reqZeroHorizon : HistoricalData :=
  { prices := List.replicate 60 100, days_ahead := 0, real_values := [] }

set_option maxRecDepth 10000
lemma scaleDen_ne_zero (s : ScalerState) : scaleDen s ≠ 0 := by
  unfold scaleDen
  split
  · exact one_ne_zero
  · assumption

lemma foldl_min_const (c : ℚ) :
    ∀ t : List ℚ, (∀ p ∈ t, p = c) → t.foldl min c = c := by
  intro t
  induction t with
  | nil => intro _; rfl
  | cons x xs ih =>
    intro hall
    have hx : x = c := hall x (List.mem_cons_self x xs)
    subst hx
    simp only [List.foldl_cons, min_self]
    exact ih (fun p hp => hall p (List.mem_cons_of_mem x hp))

lemma foldl_max_const (c : ℚ) :
    ∀ t : List ℚ, (∀ p ∈ t, p = c) → t.foldl max c = c := by
  intro t
  induction t with
  | nil => intro _; rfl
  | cons x xs ih =>
    intro hall
    have hx : x = c := hall x (List.mem_cons_self x xs)
    subst hx
    simp only [List.foldl_cons, max_self]
    exact ih (fun p hp => hall p (List.mem_cons_of_mem x hp))

lemma listMin_of_const (c : ℚ) (l : List ℚ)
    (hall : ∀ p ∈ l, p = c) (hne : l ≠ []) : listMin l = c := by
  match l with
  | [] => exact absurd rfl hne
  | h :: t =>
    have hh : h = c := hall h (List.mem_cons_self h t)
    subst hh
    exact foldl_min_const h t (fun p hp => hall p (List.mem_cons_of_mem h hp))

lemma listMax_of_const (c : ℚ) (l : List ℚ)
    (hall : ∀ p ∈ l, p = c) (hne : l ≠ []) : listMax l = c := by
  match l with
  | [] => exact absurd rfl hne
  | h :: t =>
    have hh : h = c := hall h (List.mem_cons_self h t)
    subst hh
    exact foldl_max_const h t (fun p hp => hall p (List.mem_cons_of_mem h hp))

/-- C4: for a scaler fit on any price window with `dataMin < dataMax`,
de-normalization is the exact algebraic inverse of normalization:
`inverse (transform x) = x` for every value `x` (exactly over `ℚ`, hence
in particular within floating-point tolerance on the window's range). -/
theorem inverse_transform_roundtrip (prices : List ℚ) (x : ℚ)
    (h : (fitScaler prices).dataMin < (fitScaler prices).dataMax) :
    inverse (fitScaler prices) (transform (fitScaler prices) x) = x := by
  unfold inverse transform scaleDen
  have hne : (fitScaler prices).dataMax - (fitScaler prices).dataMin ≠ 0 :=
    sub_ne_zero_of_ne (ne_of_gt h)
  simp only [if_neg hne]
  field_simp

/-- Witness for C4 at the concrete window `[0, 10]` and value `x = 3`. -/
theorem inverse_transform_roundtrip_witness :
    inverse (fitScaler [0, 10]) (transform (fitScaler [0, 10]) 3) = 3 :=
  inverse_transform_roundtrip [0, 10] 3 (by decide)

/-- C5: on an all-equal history the fitted scaler is degenerate
(`dataMin = dataMax`), yet the division-by-zero branch is unreachable
(the denominator used is `1`, never `0`), every history value normalizes
to `0`, and de-normalizing `0` recovers the constant exactly. -/
theorem degenerate_scaling (c : ℚ) (prices : List ℚ)
    (hne : prices ≠ []) (hall : ∀ p ∈ prices, p = c) :
    scaleDen (fitScaler prices) ≠ 0 ∧
    (∀ p ∈ prices, transform (fitScaler prices) p = 0) ∧
    inverse (fitScaler prices) 0 = c := by
  have hmin : listMin prices = c := listMin_of_const c prices hall hne
  have hmax : listMax prices = c := listMax_of_const c prices hall hne
  refine ⟨scaleDen_ne_zero _, ?_, ?_⟩
  · intro p hp
    have hp' : p = c := hall p hp
    subst hp'
    unfold transform fitScaler
    simp [hmin, hmax]
  · unfold inverse fitScaler
    simp [hmin, hmax]

/-- Witness for C5 at the concrete constant history `[5, 5, 5]`. -/
theorem degenerate_scaling_witness :
    scaleDen (fitScaler [5, 5, 5]) ≠ 0 ∧
    (∀ p ∈ ([5, 5, 5] : List ℚ), transform (fitScaler [5, 5, 5]) p = 0) ∧
    inverse (fitScaler [5, 5, 5]) 0 = 5 :=
  degenerate_scaling 5 [5, 5, 5] (by decide) (by decide)

lemma forecastLoop_length (m : Predictor) :
    ∀ (n : Nat) (cur acc out : List ℚ),
      forecastLoop m n cur acc = some out → out.length = acc.length + n := by
  intro n
  induction n with
  | zero =>
    intro cur acc out h
    simp only [forecastLoop] at h
    cases h
    simp
  | succ k ih =>
    intro cur acc out h
    simp only [forecastLoop] at h
    cases hm : m cur with
    | none => rw [hm] at h; cases h
    | some p =>
      rw [hm] at h
      have := ih (cur.drop 1 ++ [p]) (acc ++ [p]) out h
      simp [this]
      omega

lemma loopWindows_length (m : Predictor) :
    ∀ (n : Nat) (cur : List ℚ), cur.length = 60 →
      ∀ w ∈ loopWindows m n cur, w.length = 60 := by
  intro n
  induction n with
  | zero =>
    intro cur _ w hw
    simp [loopWindows] at hw
  | succ k ih =>
    intro cur hcur w hw
    simp only [loopWindows, List.mem_cons] at hw
    rcases hw with h | h
    · rw [h]; exact hcur
    · cases hm : m cur with
      | none => rw [hm] at h; simp at h
      | some p =>
        rw [hm] at h
        refine ih (cur.drop 1 ++ [p]) ?_ w h
        simp [List.length_drop]
        omega

lemma initialWindow_length (d : HistoricalData)
    (h : 60 ≤ d.prices.length) : (initialWindow d).length = 60 := by
  simp [initialWindow, List.length_drop]
  omega

/-- C3: starting from the initial window that `predict_prices` builds
from any sufficiently long history, every window the iterative loop
passes to the model has length exactly 60, for any number of steps:
each iteration drops the oldest element and appends the prediction, so
the window length is preserved. -/
theorem window_length_invariant (m : Predictor) (d : HistoricalData)
    (n : Nat) (h : 60 ≤ d.prices.length) :
    ∀ w ∈ loopWindows m n (initialWindow d), w.length = 60 :=
  loopWindows_length m n (initialWindow d) (initialWindow_length d h)

/-- Witness for C3: the concrete all-100 request, the constant model,
and three loop steps; the first window visited has length 60. -/
theorem window_length_invariant_witness :
    (List.replicate 60 (0 : ℚ)).length = 60 :=
  window_length_invariant constPredictor reqPlain 3 (by decide)
    (List.replicate 60 (0 : ℚ)) (by with_unfolding_all decide)

lemma predict_prices_ok_inv (m : Option Predictor) (st : ApiState)
    (d : HistoricalData) (r : ForecastResult)
    (h : (predict_prices m st d).1 = .ok r) :
    60 ≤ d.prices.length ∧ 1 ≤ d.days_ahead ∧
    ∃ mp preds, m = some mp ∧
      forecastLoop mp d.days_ahead.toNat (initialWindow d) [] = some preds ∧
      r.future_prices = preds.map (inverse (fitScaler d.prices)) ∧
      ((d.real_values = [] ∧ r.accuracy = none) ∨
       (d.real_values ≠ [] ∧
        r.accuracy = some (npRound2 (computeAccuracy
          (d.real_values.take r.future_prices.length)
          (r.future_prices.take
            (d.real_values.take r.future_prices.length).length))))) := by
  rcases m with _ | mp
  · simp only [predict_prices] at h
    split at h
    next => exact absurd h (by simp)
    next =>
    split at h
    next => exact absurd h (by simp)
    next => exact absurd h (by simp)
  · simp only [predict_prices] at h
    split at h
    next hlt => exact absurd h (by simp)
    next hlt =>
    split at h
    next hdl => exact absurd h (by simp)
    next hdl =>
    split at h
    next hloop => exact absurd h (by simp)
    next preds hloop =>
    refine ⟨by omega, by omega, mp, preds, rfl, hloop, ?_⟩
    split at h
    next hreal =>
      simp only [Prod.fst] at h
      injection h with h
      subst h
      exact ⟨rfl, Or.inl ⟨hreal, rfl⟩⟩
    next hreal =>
      simp only [Prod.fst] at h
      injection h with h
      subst h
      exact ⟨rfl, Or.inr ⟨hreal, rfl⟩⟩

/-- C1: every successful call of `predict_prices` returns exactly
`days_ahead` future prices: the requested horizon always equals the
length of the returned `future_prices` list. -/
theorem future_prices_length (m : Option Predictor) (st : ApiState)
    (d : HistoricalData) (r : ForecastResult)
    (h : (predict_prices m st d).1 = .ok r) :
    (r.future_prices.length : ℤ) = d.days_ahead := by
  obtain ⟨hlen, hdays, mp, preds, hm, hloop, hfut, _⟩ :=
    predict_prices_ok_inv m st d r h
  have hl := forecastLoop_length mp _ _ _ _ hloop
  rw [hfut]
  simp only [List.length_map, hl, List.length_nil]
  omega

/-- Witness for C1: the concrete all-100 request with horizon 2 yields
exactly two future prices. -/
theorem future_prices_length_witness :
    ((([100, 100] : List ℚ).length : ℤ)) = reqPlain.days_ahead :=
  future_prices_length (some constPredictor) emptyState reqPlain
    { future_prices := [100, 100], accuracy := none }
    (by with_unfolding_all decide)

/-- C2: the three validations of `predict_prices` run in a fixed order
with the first failure winning: a history shorter than 60 fails with
`insufficientHistory` regardless of horizon and model state; with
sufficient history a horizon below 1 fails with `invalidHorizon`
regardless of model state; with sufficient history and a valid horizon
a missing model fails with `modelUnavailable`; and otherwise no
validation error is raised — the only remaining failure mode is a
model-inference failure inside the forecast computation. -/
theorem validation_order (m : Option Predictor) (st : ApiState)
    (d : HistoricalData) :
    (d.prices.length < 60 →
      (predict_prices m st d).1 = .error .insufficientHistory) ∧
    (60 ≤ d.prices.length → d.days_ahead < 1 →
      (predict_prices m st d).1 = .error .invalidHorizon) ∧
    (60 ≤ d.prices.length → 1 ≤ d.days_ahead → m = none →
      (predict_prices m st d).1 = .error .modelUnavailable) ∧
    (60 ≤ d.prices.length → 1 ≤ d.days_ahead → m ≠ none →
      ∀ e, (predict_prices m st d).1 = .error e →
        e = .predictorFailure) := by
  refine ⟨?_, ?_, ?_, ?_⟩
  · intro h1
    unfold predict_prices
    rw [if_pos h1]
  · intro h1 h2
    have hn1 : ¬ d.prices.length < 60 := by omega
    unfold predict_prices
    rw [if_neg hn1, if_pos h2]
  · intro h1 h2 hm
    subst hm
    have hn1 : ¬ d.prices.length < 60 := by omega
    have hn2 : ¬ d.days_ahead < 1 := by omega
    unfold predict_prices
    rw [if_neg hn1, if_neg hn2]
  · intro h1 h2 hm e he
    rcases m with _ | mp
    · exact absurd rfl hm
    · have hn1 : ¬ d.prices.length < 60 := by omega
      have hn2 : ¬ d.days_ahead < 1 := by omega
      simp only [predict_prices, if_neg hn1, if_neg hn2] at he
      split at he
      next => injection he with he; exact he.symm
      next preds hloop =>
        split at he
        next => exact absurd he (by simp)
        next => exact absurd he (by simp)

/-- Witness for C2, exercising each validation conjunct at concrete
requests: a 59-price history fails with `insufficientHistory`, a zero
horizon fails with `invalidHorizon`, a missing model fails with
`modelUnavailable`, and with every validation passing but a failing
model the error is `predictorFailure`. -/
theorem validation_order_witness :
    (predict_prices (some constPredictor) emptyState reqShort).1 =
      .error .insufficientHistory ∧
    (predict_prices (some constPredictor) emptyState reqZeroHorizon).1 =
      .error .invalidHorizon ∧
    (predict_prices none emptyState reqPlain).1 =
      .error .modelUnavailable ∧
    PredictError.predictorFailure = PredictError.predictorFailure :=
  ⟨(validation_order (some constPredictor) emptyState reqShort).1
      (by decide),
   (validation_order (some constPredictor) emptyState reqZeroHorizon).2.1
      (by decide) (by decide),
   (validation_order none emptyState reqPlain).2.2.1
      (by decide) (by decide) rfl,
   (validation_order (some failPredictor) emptyState reqPlain).2.2.2
      (by decide) (by decide) (by simp) .predictorFailure
      (by with_unfolding_all decide)⟩

lemma zipWith_accTerm_fin_le :
    ∀ (real pred : List ℚ), (∀ a ∈ real, 0 < a) →
      ∀ t ∈ List.zipWith accTerm real pred,
        t.isFin = true ∧ t.val ≤ 1 := by
  intro real
  induction real with
  | nil => intro pred _ t ht; simp at ht
  | cons a as ih =>
    intro pred hpos t ht
    cases pred with
    | nil => simp at ht
    | cons p ps =>
      simp only [List.zipWith, List.mem_cons] at ht
      rcases ht with h | h
      · have ha : 0 < a := hpos a (List.mem_cons_self a as)
        subst h
        unfold accTerm
        rw [if_neg (ne_of_gt ha)]
        refine ⟨rfl, ?_⟩
        simp only [NpVal.val]
        have : 0 ≤ |a - p| / a := div_nonneg (abs_nonneg _) (le_of_lt ha)
        linarith
      · exact ih ps (fun x hx => hpos x (List.mem_cons_of_mem a hx)) t h

lemma zipWith_accTerm_map_val :
    ∀ (real pred : List ℚ), (∀ a ∈ real, a ≠ 0) →
      (List.zipWith accTerm real pred).map NpVal.val =
        List.zipWith (fun a p => 1 - |a - p| / a) real pred := by
  intro real
  induction real with
  | nil => intro pred _; simp
  | cons a as ih =>
    intro pred hnz
    cases pred with
    | nil => simp
    | cons p ps =>
      have ha : a ≠ 0 := hnz a (List.mem_cons_self a as)
      simp only [List.zipWith, List.map_cons]
      rw [ih ps (fun x hx => hnz x (List.mem_cons_of_mem a hx))]
      unfold accTerm
      rw [if_neg ha]
      rfl

lemma zipWith_accTerm_all_fin :
    ∀ (real pred : List ℚ), (∀ a ∈ real, a ≠ 0) →
      (List.zipWith accTerm real pred).all NpVal.isFin = true := by
  intro real
  induction real with
  | nil => intro pred _; simp
  | cons a as ih =>
    intro pred hnz
    cases pred with
    | nil => simp
    | cons p ps =>
      have ha : a ≠ 0 := hnz a (List.mem_cons_self a as)
      simp only [List.zipWith, List.all_cons, Bool.and_eq_true]
      refine ⟨?_, ih ps (fun x hx => hnz x (List.mem_cons_of_mem a hx))⟩
      unfold accTerm
      rw [if_neg ha]
      rfl

/-- C6: the accuracy scorer truncates both sequences to the minimum of
the two lengths; a successful forecast without ground truth carries no
accuracy value (the degenerate zero-overlap case is only reachable with
an empty ground-truth list, which skips scoring); and on nonempty
truncated inputs with nonzero actual values the score is the mean of
`1 - |actual - predicted| / actual` over the compared elements times
100. -/
theorem accuracy_scorer_spec (real pred : List ℚ) :
    (real.take pred.length).length = min real.length pred.length ∧
    (pred.take (real.take pred.length).length).length =
      min real.length pred.length ∧
    (∀ m st d r, (predict_prices m st d).1 = .ok r →
      d.real_values = [] → r.accuracy = none) ∧
    (real ≠ [] → pred ≠ [] → (∀ a ∈ real, a ≠ 0) →
      computeAccuracy real pred =
        .fin ((List.zipWith (fun a p => 1 - |a - p| / a) real pred).sum /
          (List.zipWith (fun a p => 1 - |a - p| / a) real pred).length
          * 100)) := by
  refine ⟨?_, ?_, ?_, ?_⟩
  · simp [List.length_take]
    omega
  · simp [List.length_take]
    omega
  · intro m st d r hok hreal
    obtain ⟨_, _, _, _, _, _, _, hacc⟩ := predict_prices_ok_inv m st d r hok
    rcases hacc with ⟨_, h⟩ | ⟨hne, _⟩
    · exact h
    · exact absurd hreal hne
  · intro hr hp hnz
    have hzne : List.zipWith accTerm real pred ≠ [] := by
      cases real with
      | nil => exact absurd rfl hr
      | cons a as =>
        cases pred with
        | nil => exact absurd rfl hp
        | cons p ps => simp [List.zipWith]
    unfold computeAccuracy npMean
    rw [if_neg hzne, if_pos (zipWith_accTerm_all_fin real pred hnz),
      zipWith_accTerm_map_val real pred hnz]
    have hlen : (List.zipWith accTerm real pred).length =
        (List.zipWith (fun a p => 1 - |a - p| / a) real pred).length := by
      simp [List.length_zipWith]
    rw [hlen]
    rfl

/-- Witness for C6 at the truncated pair `real = [25]`,
`pred = [100]`, together with a ground-truth-free concrete run for the
omission conjunct. -/
theorem accuracy_scorer_spec_witness :
    (([25] : List ℚ).take ([100] : List ℚ).length).length =
      min ([25] : List ℚ).length ([100] : List ℚ).length ∧
    (ForecastResult.accuracy
      { future_prices := [100, 100], accuracy := none } = none) ∧
    computeAccuracy [25] [100] =
      .fin ((List.zipWith (fun a p => 1 - |a - p| / a)
          ([25] : List ℚ) ([100] : List ℚ)).sum /
        (List.zipWith (fun a p => 1 - |a - p| / a)
          ([25] : List ℚ) ([100] : List ℚ)).length * 100) :=
  ⟨(accuracy_scorer_spec [25] [100]).1,
   (accuracy_scorer_spec [25] [100]).2.2.1 (some constPredictor)
     emptyState reqPlain { future_prices := [100, 100], accuracy := none }
     (by with_unfolding_all decide) rfl,
   (accuracy_scorer_spec [25] [100]).2.2.2 (by decide) (by decide)
     (by decide)⟩

/-- C7 (code behaviour at the failing input): a compared ground-truth
element equal to `0` does not raise any error — the scorer produces a
non-finite value (`1 - |0 - 100| / 0` is `-inf` in numpy), the request
still succeeds with HTTP 200, and the non-finite accuracy is silently
archived in `accuracy_data` and returned, instead of signalling the
`DegenerateGroundTruth` failure the specification requires. -/
theorem zero_actual_silent_nonfinite :
    computeAccuracy [0] [100] = .nonfin ∧
    (predict_prices (some constPredictor) emptyState reqZeroActual).1 =
      .ok { future_prices := [100], accuracy := some .nonfin } ∧
    (predict_prices (some constPredictor) emptyState
        reqZeroActual).2.accuracy_data =
      [{ real_values := [0], predicted_values := [100],
         accuracy := .nonfin }] := by
  with_unfolding_all decide

/-- C8 counterexample: a valid request whose ground truth is `[25]`
against a predicted price of `100` yields a defined accuracy of `-200`,
which lies outside the claimed interval `[0, 100]`. -/
theorem accuracy_bounds_counterexample :
    (predict_prices (some constPredictor) emptyState reqNegAcc).1 =
      .ok { future_prices := [100], accuracy := some (.fin (-200)) } ∧
    ¬ ((0 : ℚ) ≤ -200) := by
  with_unfolding_all decide

lemma roundHalfEven_le (x : ℚ) : (roundHalfEven x : ℚ) ≤ x + 1 / 2 := by
  unfold roundHalfEven
  split
  next htie =>
    split
    next => linarith
    next => push_cast; linarith
  next =>
    rw [round_eq]
    exact_mod_cast Int.floor_le (x + 1 / 2)

lemma round2_le_100 (q : ℚ) (h : q ≤ 100) : round2 q ≤ 100 := by
  unfold round2
  have h1 : (roundHalfEven (q * 100) : ℚ) ≤ q * 100 + 1 / 2 :=
    roundHalfEven_le (q * 100)
  have h2 : (roundHalfEven (q * 100) : ℚ) ≤ 10000 + 1 / 2 := by linarith
  have h3 : roundHalfEven (q * 100) ≤ 10000 := by
    by_contra hc
    push_neg at hc
    have : (10001 : ℚ) ≤ (roundHalfEven (q * 100) : ℚ) := by
      exact_mod_cast hc
    linarith
  have h4 : (roundHalfEven (q * 100) : ℚ) ≤ 10000 := by exact_mod_cast h3
  linarith

lemma computeAccuracy_le_100 (real pred : List ℚ)
    (hr : real ≠ []) (hp : pred ≠ []) (hpos : ∀ a ∈ real, 0 < a) :
    ∃ q, computeAccuracy real pred = .fin q ∧ q ≤ 100 := by
  have hnz : ∀ a ∈ real, a ≠ 0 := fun a ha => ne_of_gt (hpos a ha)
  have hzne : List.zipWith accTerm real pred ≠ [] := by
    cases real with
    | nil => exact absurd rfl hr
    | cons a as =>
      cases pred with
      | nil => exact absurd rfl hp
      | cons p ps => simp [List.zipWith]
  have hall := zipWith_accTerm_fin_le real pred hpos
  unfold computeAccuracy npMean
  rw [if_neg hzne, if_pos (zipWith_accTerm_all_fin real pred hnz)]
  refine ⟨_, rfl, ?_⟩
  have hlenpos : 0 < ((List.zipWith accTerm real pred).length : ℚ) := by
    have : 0 < (List.zipWith accTerm real pred).length :=
      List.length_pos.mpr hzne
    exact_mod_cast this
  have hsum : ((List.zipWith accTerm real pred).map NpVal.val).sum ≤
      ((List.zipWith accTerm real pred).map NpVal.val).length • (1 : ℚ) := by
    refine List.sum_le_card_nsmul _ _ ?_
    intro x hx
    obtain ⟨t, ht, hval⟩ := List.mem_map.mp hx
    rw [← hval]
    exact (hall t ht).2
  rw [List.length_map] at hsum
  have hsum' : ((List.zipWith accTerm real pred).map NpVal.val).sum ≤
      ((List.zipWith accTerm real pred).length : ℚ) := by
    simpa [nsmul_eq_mul] using hsum
  have hdiv : ((List.zipWith accTerm real pred).map NpVal.val).sum /
      ((List.zipWith accTerm real pred).length : ℚ) ≤ 1 :=
    (div_le_one hlenpos).mpr hsum'
  show _ * 100 ≤ (100 : ℚ)
  linarith

/-- C8 (amended): whenever a successful forecast carries a defined
(finite) accuracy and every compared ground-truth element is strictly
positive, that accuracy is at most 100; there is no lower bound (it can
be negative, as the counterexample shows). -/
theorem accuracy_defined_le_100 (m : Option Predictor) (st : ApiState)
    (d : HistoricalData) (r : ForecastResult) (v : NpVal)
    (hok : (predict_prices m st d).1 = .ok r)
    (hacc : r.accuracy = some v)
    (hpos : ∀ a ∈ d.real_values.take r.future_prices.length, 0 < a) :
    ∃ q, v = .fin q ∧ q ≤ 100 := by
  obtain ⟨hlen, hdays, mp, preds, hm, hloop, hfut, hca⟩ :=
    predict_prices_ok_inv m st d r hok
  rcases hca with ⟨hre, hnone⟩ | ⟨hre, hsome⟩
  · rw [hnone] at hacc; cases hacc
  · rw [hsome] at hacc
    injection hacc with hacc
    have hfl : r.future_prices.length = d.days_ahead.toNat := by
      rw [hfut]
      simp [forecastLoop_length mp _ _ _ _ hloop]
    have hflpos : 0 < r.future_prices.length := by omega
    have hr' : d.real_values.take r.future_prices.length ≠ [] := by
      rw [Ne, List.take_eq_nil_iff]
      push_neg
      exact ⟨by omega, hre⟩
    have hp' : r.future_prices.take
        (d.real_values.take r.future_prices.length).length ≠ [] := by
      rw [Ne, List.take_eq_nil_iff]
      push_neg
      refine ⟨?_, ?_⟩
      · have := List.length_pos.mpr hr'
        omega
      · intro hcon
        rw [hcon] at hflpos
        simp at hflpos
    obtain ⟨q, hq, hle⟩ := computeAccuracy_le_100 _ _ hr' hp' hpos
    refine ⟨round2 q, ?_, round2_le_100 q hle⟩
    rw [← hacc, hq]
    rfl

/-- Witness for C8 (amended): ground truth `[100]` against predicted
`[100]` yields a defined accuracy of exactly 100, which is at most
100. -/
theorem accuracy_defined_le_100_witness :
    ∃ q, NpVal.fin 100 = .fin q ∧ q ≤ 100 :=
  accuracy_defined_le_100 (some constPredictor) emptyState reqFullAcc
    { future_prices := [100], accuracy := some (.fin 100) } (.fin 100)
    (by with_unfolding_all decide) rfl (by decide)

/-- C9 counterexample: take the value `get_performance_data` returns at
the empty state, then let the middleware append one latency record; the
append IS observable through the previously returned value, because the
handler returns the live list by reference rather than a copy. -/
theorem snapshot_counterexample :
    readPerformance
      (appendPerformance emptyState
        { path := "/predict", process_time := 1 / 10, days_ahead := 3 })
      (get_performance_data emptyState) ≠
    readPerformance emptyState (get_performance_data emptyState) := by
  decide

/-- C9 (amended): `get_performance_data` returns the live
`performance_data` list by reference, not a point-in-time copy: reading
through a previously returned value after an append observes exactly
the appended record. -/
theorem snapshot_aliases_live_list (st : ApiState) (r : PerfRecord) :
    readPerformance (appendPerformance st r) (get_performance_data st) =
      st.performance_data ++ [r] :=
  rfl

/-- C10: `predict_prices` is atomic with respect to the accuracy log:
every failing request (any of the three validation errors or a
model-inference failure) leaves `accuracy_data` unchanged, a successful
request without ground truth leaves it unchanged too, and a successful
request with ground truth appends exactly one record. -/
theorem accuracy_log_atomicity (m : Option Predictor) (st : ApiState)
    (d : HistoricalData) :
    (∀ e, (predict_prices m st d).1 = .error e →
      ((predict_prices m st d).2).accuracy_data = st.accuracy_data) ∧
    (∀ r, (predict_prices m st d).1 = .ok r →
      (d.real_values = [] →
        ((predict_prices m st d).2).accuracy_data = st.accuracy_data) ∧
      (d.real_values ≠ [] →
        ∃ rec, ((predict_prices m st d).2).accuracy_data =
          st.accuracy_data ++ [rec])) := by
  have key : ∀ res st2, predict_prices m st d = (res, st2) →
      (∀ e, res = .error e → st2.accuracy_data = st.accuracy_data) ∧
      (∀ r, res = .ok r →
        (d.real_values = [] → st2.accuracy_data = st.accuracy_data) ∧
        (d.real_values ≠ [] →
          ∃ rec, st2.accuracy_data = st.accuracy_data ++ [rec])) := by
    intro res st2 heq
    rcases m with _ | mp
    · simp only [predict_prices] at heq
      split at heq
      next =>
        injection heq with h1 h2
        subst h1; subst h2
        exact ⟨fun e _ => rfl, fun r hr => absurd hr (by simp)⟩
      next =>
        split at heq
        next =>
          injection heq with h1 h2
          subst h1; subst h2
          exact ⟨fun e _ => rfl, fun r hr => absurd hr (by simp)⟩
        next =>
          injection heq with h1 h2
          subst h1; subst h2
          exact ⟨fun e _ => rfl, fun r hr => absurd hr (by simp)⟩
    · simp only [predict_prices] at heq
      split at heq
      next =>
        injection heq with h1 h2
        subst h1; subst h2
        exact ⟨fun e _ => rfl, fun r hr => absurd hr (by simp)⟩
      next =>
        split at heq
        next =>
          injection heq with h1 h2
          subst h1; subst h2
          exact ⟨fun e _ => rfl, fun r hr => absurd hr (by simp)⟩
        next =>
          split at heq
          next =>
            injection heq with h1 h2
            subst h1; subst h2
            exact ⟨fun e _ => rfl, fun r hr => absurd hr (by simp)⟩
          next preds hloop =>
            split at heq
            next hreal =>
              injection heq with h1 h2
              subst h1; subst h2
              refine ⟨fun e he => absurd he (by simp), fun r hr => ?_⟩
              exact ⟨fun _ => rfl, fun hne => absurd hreal hne⟩
            next hreal =>
              injection heq with h1 h2
              subst h1; subst h2
              refine ⟨fun e he => absurd he (by simp), fun r hr => ?_⟩
              exact ⟨fun hcon => absurd hcon hreal, fun _ => ⟨_, rfl⟩⟩
  exact key (predict_prices m st d).1 (predict_prices m st d).2 rfl

/-- Witness for C10: a failing request (history too short) leaves the
accuracy log unchanged; a successful request without ground truth
leaves it unchanged; a successful request with ground truth appends one
record. -/
theorem accuracy_log_atomicity_witness :
    ((predict_prices (some constPredictor) emptyState reqShort).2).accuracy_data
      = emptyState.accuracy_data ∧
    ((predict_prices (some constPredictor) emptyState reqPlain).2).accuracy_data
      = emptyState.accuracy_data ∧
    ∃ rec,
      ((predict_prices (some constPredictor) emptyState
        reqFullAcc).2).accuracy_data = emptyState.accuracy_data ++ [rec] :=
  ⟨(accuracy_log_atomicity (some constPredictor) emptyState reqShort).1
     .insufficientHistory (by decide),
   ((accuracy_log_atomicity (some constPredictor) emptyState reqPlain).2
     { future_prices := [100, 100], accuracy := none }
     (by with_unfolding_all decide)).1 rfl,
   ((accuracy_log_atomicity (some constPredictor) emptyState reqFullAcc).2
     { future_prices := [100], accuracy := some (.fin 100) }
     (by with_unfolding_all decide)).2 (by decide)⟩
